import Mathlib

/-
Verification development for the wago-project session runtime.

The Go sources are shallowly embedded: strings are lists of characters
(`Chars`), machine integers are `Nat` with explicit range checks where the
source checks them, fallible operations return `Except`/`Option`, and the
effectful pipeline is modelled as a pure function from an explicit world
(session row, live client, HTTP behaviour of the webhook endpoint) to a
result record that logs the externally visible actions.
-/

set_option maxRecDepth 100000

namespace Wago

/-- Chars is the model of Go strings: a list of characters. -/
abbrev Chars := List Char

/-- Conversion from a Lean string literal to the `Chars` model. -/
def str (s : String) : Chars := s.toList

/-- Model of Go `strings.Split(l, sep)` for a one-character separator:
splits at every occurrence of `sep`; the result is always non-empty. -/
def splitChar (sep : Char) : Chars → List Chars
  | [] => [[]]
  | c :: rest =>
    if c = sep then [] :: splitChar sep rest
    else
      match splitChar sep rest with
      | [] => [[c]]
      | p :: ps => (c :: p) :: ps

/-- Model of Go `strings.TrimSpace`: drop whitespace from both ends. -/
def trimChars (l : Chars) : Chars :=
  ((l.dropWhile Char.isWhitespace).reverse.dropWhile Char.isWhitespace).reverse

/-- Model of Go `strings.ToLower` (the tokens the code compares are ASCII). -/
def lowerChars (l : Chars) : Chars := l.map Char.toLower

/-- Model of Go `strings.Contains hay needle`: substring containment. -/
def containsSub (hay needle : Chars) : Bool :=
  decide (needle <:+: hay)

/-- Model of Go `strings.Contains(l, string(c))` for a single character,
as used by `normalizeSessionJID` to test for a server marker. -/
def containsChar (l : Chars) (c : Char) : Bool := l.contains c

/-- Decimal rendering of a natural number, least significant digit first,
with explicit fuel so the definition computes by reduction (the value is
always smaller than the fuel, see `natDigitsRev_unfold`). -/
def natDigitsRevAux : Nat → Nat → Chars
  | 0, _ => []
  | fuel + 1, n =>
    if n < 10 then [Char.ofNat (48 + n)]
    else Char.ofNat (48 + n % 10) :: natDigitsRevAux fuel (n / 10)

/-- Decimal rendering of a natural number, least significant digit first. -/
def natDigitsRev (n : Nat) : Chars := natDigitsRevAux (n + 1) n

/-- Decimal rendering of a natural number (model of Go `%d` formatting). -/
def natToChars (n : Nat) : Chars := (natDigitsRev n).reverse

/-- Numeric value of a list of decimal digit characters (most significant
first), as accumulated by Go `strconv.ParseUint`. -/
def digitsVal (l : Chars) : Nat :=
  l.foldl (fun a c => a * 10 + (c.toNat - 48)) 0

/-- Model of Go `strconv.ParseUint(s, 10, 16)`: a non-empty all-digit
string whose value fits in 16 bits, otherwise an error (`none`). -/
def parseUint16 (l : Chars) : Option Nat :=
  if l = [] then none
  else if l.all Char.isDigit then
    if digitsVal l < 65536 then some (digitsVal l) else none
  else none

/-! ## JID model

Modelled from the spec: the external whatsmeow library's `types.JID`,
`types.ParseJID`, `JID.String`, `JID.ToNonAD` and `types.NewJID` are not part
of this repository.  The spec's glossary defines a JID as an identifier of
the form `user@server` or `user@server:device`, and the repository's own
comment on `normalizeSessionJID` records that `types.ParseJID` does not
error on plain numbers (a string without `@` parses with an empty user and
the whole string as server).  The model below parses exactly that grammar:
no `@` yields an empty user, one `@` splits user from server with an
optional 16-bit decimal device after a colon in the user part, and any
other shape is a parse error. -/

/-- Default WhatsApp user server (`types.DefaultUserServer`). -/
def DefaultUserServer : Chars := str "s.whatsapp.net"

/-- Hidden-user (LID) server (`types.HiddenUserServer`). -/
def HiddenUserServer : Chars := str "lid"

/-- Model of whatsmeow `types.JID`. -/
structure JID where
  user : Chars
  server : Chars
  device : Nat
deriving DecidableEq

/-- Model of `types.NewJID(user, server)`: a JID with no device part. -/
def NewJID (user server : Chars) : JID := ⟨user, server, 0⟩

/-- Model of `JID.String()`: `user:device@server` when a device is set,
`user@server` when the user is non-empty, otherwise just the server. -/
def JID.string (j : JID) : Chars :=
  if j.device > 0 then j.user ++ ':' :: natToChars j.device ++ '@' :: j.server
  else if j.user ≠ [] then j.user ++ '@' :: j.server
  else j.server

/-- Model of `JID.ToNonAD()`: drop the device part. -/
def JID.toNonAD (j : JID) : JID := ⟨j.user, j.server, 0⟩

/-- Model of `types.ParseJID` on the spec's JID grammar (see the section
comment above). -/
def parseJID (s : Chars) : Except Chars JID :=
  match splitChar '@' s with
  | [single] => .ok (NewJID [] single)
  | [u, srv] =>
    if containsChar u ':' then
      match splitChar ':' u with
      | [u0, d] =>
        match parseUint16 d with
        | some dev => .ok ⟨u0, srv, dev⟩
        | none => .error (str "failed to parse device part of JID")
      | _ => .error (str "unexpected number of colons in JID")
    else .ok ⟨u, srv, 0⟩
  | _ => .error (str "unexpected number of @ separators in JID")

/-- Fallback branch of `normalizeSessionJID` for bare phone numbers and
other shapes rejected by the first parse: append the default server when no
`@` marker is present, re-parse, and require a non-empty user part. -/
def normalizeFallback (cleaned : Chars) : Except Chars JID :=
  let cleaned2 := if containsChar cleaned '@' then cleaned
                  else cleaned ++ '@' :: DefaultUserServer
  match parseJID cleaned2 with
  | .error e => .error e
  | .ok jid =>
    if jid.user = [] then .error (str "failed to parse user part from JID")
    else .ok jid

/-- Embedding of `normalizeSessionJID` (ClientManager source): trim the raw
string, reject the empty string, accept a parse with a non-empty user
(defaulting an empty server), and otherwise retry through the fallback. -/
def normalizeSessionJID (raw : Chars) : Except Chars JID :=
  let cleaned := trimChars raw
  if cleaned = [] then .error (str "empty JID string")
  else
    match parseJID cleaned with
    | .ok jid =>
      if jid.user ≠ [] then
        .ok (if jid.server = [] then { jid with server := DefaultUserServer } else jid)
      else
        normalizeFallback cleaned
    | .error _ => normalizeFallback cleaned

/-! ## Mention detection (user_repo.go: `collectContextInfos`, `isMentioned`) -/

/-- Model of the protobuf `ContextInfo`: only the mentioned-JID list is read
by the code under verification. -/
structure ContextInfo where
  mentionedJID : List Chars
deriving DecidableEq

/-- Model of a message part that carries text and an optional context info
(extended text). -/
structure ExtTextPart where
  text : Chars
  contextInfo : Option ContextInfo
deriving DecidableEq

/-- Model of an image message part: caption, mimetype and optional context
info. -/
structure ImagePart where
  caption : Chars
  mimetype : Chars
  contextInfo : Option ContextInfo
deriving DecidableEq

/-- Model of a message part of which the code only reads the context info
(video, document, audio, sticker, location, live location). -/
structure CtxPart where
  contextInfo : Option ContextInfo
deriving DecidableEq

/-- Model of the protobuf `Message`: the fields read by the event handler.
A `none` part models a nil pointer; Go's nil-safe getters return zero
values on nil, which the embedding makes explicit with `Option`. -/
structure WAMessage where
  conversation : Chars
  extendedText : Option ExtTextPart
  image : Option ImagePart
  video : Option CtxPart
  document : Option CtxPart
  audio : Option CtxPart
  sticker : Option CtxPart
  location : Option CtxPart
  liveLocation : Option CtxPart
deriving DecidableEq

/-- Embedding of `collectContextInfos`: for each present part, append its
(possibly nil) context info. -/
def collectContextInfos (msg : WAMessage) : List (Option ContextInfo) :=
  (match msg.extendedText with | some p => [p.contextInfo] | none => []) ++
  (match msg.image with | some p => [p.contextInfo] | none => []) ++
  (match msg.video with | some p => [p.contextInfo] | none => []) ++
  (match msg.document with | some p => [p.contextInfo] | none => []) ++
  (match msg.audio with | some p => [p.contextInfo] | none => []) ++
  (match msg.sticker with | some p => [p.contextInfo] | none => []) ++
  (match msg.location with | some p => [p.contextInfo] | none => []) ++
  (match msg.liveLocation with | some p => [p.contextInfo] | none => [])

/-- Token contribution of a single target JID in `isMentioned`: skipped when
user and server are both empty; otherwise the bare user, the full string and
the non-AD string, plus the LID-server user and full string when the target
is not already on the LID server and has a non-empty user. -/
def jidTokens (jid : JID) : List Chars :=
  if jid.user = [] ∧ jid.server = [] then []
  else
    [jid.user, jid.string, jid.toNonAD.string] ++
    (if jid.server ≠ HiddenUserServer ∧ jid.user ≠ [] then
      [(NewJID jid.user HiddenUserServer).user, (NewJID jid.user HiddenUserServer).string]
    else [])

/-- Search-token set built by `isMentioned` over the whole target list. -/
def searchTokens (targets : List JID) : List Chars :=
  targets.foldr (fun jid acc => jidTokens jid ++ acc) []

/-- Embedding of `isMentioned`: true when some context-info mention-list
entry contains a search token as a substring, or when the lower-cased text
contains `@` followed by a lower-cased token. -/
def isMentioned (msg : WAMessage) (rawText : Chars) (targets : List JID) : Bool :=
  let tokens := searchTokens targets
  if (collectContextInfos msg).any (fun ctx =>
      match ctx with
      | none => false
      | some c => c.mentionedJID.any (fun m => tokens.any (fun t => containsSub m t)))
  then true
  else
    let text := lowerChars rawText
    tokens.any (fun t => containsSub text ('@' :: lowerChars t))

/-! ## Webhook response shape (part_005: `extractText`) -/

/-- Model of a decoded JSON value as produced by Go `json.Unmarshal` into
`interface\x7b\x7d`: strings, numbers, booleans, null, arrays, and objects as
key-value lists (Go maps with unique keys). -/
inductive Json where
  | str (s : Chars)
  | num (n : Int)
  | bool (b : Bool)
  | null
  | arr (xs : List Json)
  | obj (fields : List (Chars × Json))

/-- Model of Go map indexing `v[key]` on a decoded JSON object. -/
def jsonLookup (k : Chars) : List (Chars × Json) → Option Json
  | [] => none
  | (k2, v) :: rest => if k2 = k then some v else jsonLookup k rest

/-- Probe keys checked in order by `extractText` on objects. -/
def probeKeys : List Chars :=
  [str "output", str "text", str "message", str "response", str "body", str "content"]

/-- Embedding of the key loop in `extractText`: return the first probe key
whose value is a non-empty JSON string. -/
def probeFirst (fields : List (Chars × Json)) : List Chars → Option Chars
  | [] => none
  | k :: ks =>
    match jsonLookup k fields with
    | some (.str s) => if s ≠ [] then some s else probeFirst fields ks
    | _ => probeFirst fields ks

mutual
/-- Structural size of a decoded JSON value, used as fuel for the
embedding of `extractText`. -/
def jsize : Json → Nat
  | .str _ => 1
  | .num _ => 1
  | .bool _ => 1
  | .null => 1
  | .arr xs => 1 + jsizeList xs
  | .obj fields => 1 + jsizeFields fields
/-- Structural size of a list of JSON values. -/
def jsizeList : List Json → Nat
  | [] => 0
  | x :: rest => 1 + jsize x + jsizeList rest
/-- Structural size of the field list of a JSON object. -/
def jsizeFields : List (Chars × Json) → Nat
  | [] => 0
  | (_, v) :: rest => 1 + jsize v + jsizeFields rest
end

theorem jsonLookup_sizeOf {k : Chars} {fields : List (Chars × Json)} {v : Json}
    (h : jsonLookup k fields = some v) : jsize v < jsize (Json.obj fields) := by
  induction fields with
  | nil => simp [jsonLookup] at h
  | cons kv rest ih =>
    rw [jsonLookup] at h
    by_cases hk : kv.1 = k
    · simp [hk] at h
      subst h
      obtain ⟨k2, v2⟩ := kv
      simp [jsize, jsizeFields]
      omega
    · simp [hk] at h
      have := ih h
      obtain ⟨k2, v2⟩ := kv
      simp [jsize, jsizeFields] at this ⊢
      omega

/-- Embedding of `extractText` (part_005), with explicit fuel so the
definition computes by reduction: arrays recurse into the head, objects
probe the common keys then recurse into `data` then `json`, strings are
returned as-is, everything else yields the empty string.  The Go recursion
descends into structurally smaller decoded values, so `sizeOf` of the value
is always enough fuel (`extractTextF_congr` below makes the fuel
irrelevant). -/
def extractTextF : Nat → Json → Chars
  | 0, _ => []
  | fuel + 1, j =>
    match j with
    | .arr xs =>
      match xs with
      | [] => []
      | x :: _ => extractTextF fuel x
    | .obj fields =>
      match probeFirst fields probeKeys with
      | some s => s
      | none =>
        match jsonLookup (str "data") fields with
        | some v => extractTextF fuel v
        | none =>
          match jsonLookup (str "json") fields with
          | some v => extractTextF fuel v
          | none => []
    | .str s => s
    | _ => []

/-- Embedding of `extractText` (part_005): the fuel-free wrapper. -/
def extractText (j : Json) : Chars := extractTextF (jsize j) j

theorem json_sizeOf_pos (j : Json) : 0 < jsize j := by
  cases j <;> simp [jsize] <;> omega

theorem extractTextF_congr : ∀ (fuel fuel2 : Nat) (j : Json),
    jsize j ≤ fuel → jsize j ≤ fuel2 →
    extractTextF fuel j = extractTextF fuel2 j := by
  intro fuel
  induction fuel with
  | zero => intro fuel2 j hj; have := json_sizeOf_pos j; omega
  | succ n ih =>
    intro fuel2 j hj hj2
    have hpos := json_sizeOf_pos j
    cases fuel2 with
    | zero => omega
    | succ m =>
      cases j with
      | arr xs =>
        cases xs with
        | nil => rfl
        | cons x rest =>
          have hx : jsize x < jsize (Json.arr (x :: rest)) := by
            simp [jsize, jsizeList]
            omega
          simp only [extractTextF]
          exact ih m x (by omega) (by omega)
      | obj fields =>
        simp only [extractTextF]
        cases probeFirst fields probeKeys with
        | some s => rfl
        | none =>
          simp only []
          cases hd : jsonLookup (str "data") fields with
          | some v =>
            have := jsonLookup_sizeOf hd
            exact ih m v (by omega) (by omega)
          | none =>
            cases hjs : jsonLookup (str "json") fields with
            | some v =>
              have := jsonLookup_sizeOf hjs
              exact ih m v (by omega) (by omega)
            | none => rfl
      | str s => rfl
      | num n2 => rfl
      | bool b => rfl
      | null => rfl

/-- Reply extraction from a successful (2xx) response body in `SendWebhook`:
when `json.Unmarshal` fails (`none`) the raw body is returned, otherwise the
decoded value goes through `extractText`. -/
def replyOfBody (raw : Chars) (parsed : Option Json) : Chars :=
  match parsed with
  | none => raw
  | some j => extractText j

/-! ## Webhook Dispatcher (part_005, media-capable `SendWebhook`) -/

/-- Model of `webhook.GroupInfo`. -/
structure GroupInfo where
  id : Chars
  name : Chars
deriving DecidableEq

/-- Model of `webhook.WebhookPayload`.  `tsText` carries the RFC3339
rendering of the timestamp (Go time formatting is external) and `tsUnix`
its unix seconds, which the handler uses for media filenames. -/
structure WebhookPayload where
  sessionID : Chars
  fromUser : Chars
  toUser : Chars
  message : Chars
  tsText : Chars
  tsUnix : Nat
  isGroup : Bool
  groupInfo : Option GroupInfo
  pushName : Chars
  messageType : Chars
  mediaData : Chars
  mediaName : Chars
  mediaMimeType : Chars
deriving DecidableEq

/-- Rendering of a Go bool with `%v`. -/
def boolChars (b : Bool) : Chars := if b then str "true" else str "false"

/-- Simplified JSON rendering of a quoted field (Go string escaping is not
modelled; the claims only depend on the body being a function of the
payload and on its emptiness). -/
def jsonField (name : Chars) (value : Chars) : Chars :=
  '"' :: name ++ '"' :: ':' :: '"' :: value ++ ['"']

/-- Model of `json.Marshal(payload)`: the JSON-tagged fields in struct
order; media fields carry the `-` tag and are omitted; `group_info` is
omitted when nil (`omitempty`). -/
def jsonEncode (p : WebhookPayload) : Chars :=
  '\x7b' ::
    (jsonField (str "session_id") p.sessionID ++ ',' ::
     jsonField (str "from") p.fromUser ++ ',' ::
     jsonField (str "to") p.toUser ++ ',' ::
     jsonField (str "message") p.message ++ ',' ::
     jsonField (str "timestamp") p.tsText ++ ',' ::
     jsonField (str "is_group") (boolChars p.isGroup) ++ ',' ::
     (match p.groupInfo with
      | some g => jsonField (str "group_info")
          (g.id ++ '/' :: g.name) ++ [',']
      | none => []) ++
     jsonField (str "push_name") p.pushName ++ ',' ::
     jsonField (str "message_type") p.messageType) ++ ['\x7d']

/-- One multipart field as written by `writer.WriteField` (MIME framing
simplified to a fixed boundary line plus the name/value pair). -/
def multipartField (name : Chars) (value : Chars) : Chars :=
  str "--wagoboundary|name=" ++ name ++ '|' :: value ++ ['\n']

/-- Model of the multipart body built in `SendWebhook` when media bytes are
present: the fields in source order (`group_info` only when present) and
the `file` part with filename, content type and the media bytes. -/
def multipartEncode (p : WebhookPayload) : Chars :=
  multipartField (str "session_id") p.sessionID ++
  multipartField (str "from") p.fromUser ++
  multipartField (str "to") p.toUser ++
  multipartField (str "message") p.message ++
  multipartField (str "timestamp") p.tsText ++
  multipartField (str "is_group") (boolChars p.isGroup) ++
  multipartField (str "push_name") p.pushName ++
  multipartField (str "message_type") p.messageType ++
  (match p.groupInfo with
   | some g => multipartField (str "group_info") (g.id ++ '/' :: g.name)
   | none => []) ++
  str "--wagoboundary|file|" ++ p.mediaName ++ '|' :: p.mediaMimeType ++
  '|' :: p.mediaData ++ str "|--wagoboundary--"

/-- Request body built once before the retry loop: multipart when media
bytes are present, JSON otherwise. -/
def requestBody (p : WebhookPayload) : Chars :=
  if p.mediaData ≠ [] then multipartEncode p else jsonEncode p

/-- Model of one HTTP exchange's response: status, raw body bytes, and the
result of `json.Unmarshal` on them (`none` models a parse error). -/
structure HttpResponse where
  status : Nat
  rawBody : Chars
  parsedBody : Option Json

/-- Outcome of one attempt of `s.Client.Do(req)`: a transport error or a
response. -/
inductive AttemptOutcome where
  | transportErr (e : Chars)
  | resp (r : HttpResponse)

/-- Observable events of one `SendWebhook` call: HTTP attempts (with the
bytes actually transmitted, i.e. what is left in the request body reader)
and sleeps (in seconds). -/
inductive WebhookEvent where
  | attempt (i : Nat) (sentBody : Chars)
  | sleep (secs : Nat)
deriving DecidableEq

/-- Result of `SendWebhook`: the extracted reply, the error (if any), and
the event trace. -/
structure SendResult where
  reply : Chars
  error : Option Chars
  trace : List WebhookEvent
deriving DecidableEq

/-- Error text recorded by the loop for a failed attempt. -/
def attemptFailMsg : AttemptOutcome → Chars
  | .transportErr e => e
  | .resp r => str "webhook returned status: " ++ natToChars r.status

/-- Embedding of the retry loop of `SendWebhook` (part_005).  The request
is built once before the loop; each executed attempt transmits what is
left in the body reader and leaves it drained (`[]`), which is the
limitation the source comments acknowledge.  After each failed attempt
(transport error or non-2xx) the loop sleeps `i+1` seconds; after the last
failure it returns an empty reply and a wrapped error. -/
def sendAttempts (oracle : Nat → AttemptOutcome) (pending : Chars)
    (lastErr : Chars) (i : Nat) : Nat → SendResult
  | 0 => ⟨[], some (str "failed to send webhook after retries: " ++ lastErr), []⟩
  | r + 1 =>
    match oracle i with
    | .transportErr e =>
      let rest := sendAttempts oracle [] e (i + 1) r
      ⟨rest.reply, rest.error, .attempt i pending :: .sleep (i + 1) :: rest.trace⟩
    | .resp resp =>
      if 200 ≤ resp.status ∧ resp.status < 300 then
        ⟨replyOfBody resp.rawBody resp.parsedBody, none, [.attempt i pending]⟩
      else
        let rest := sendAttempts oracle []
          (str "webhook returned status: " ++ natToChars resp.status) (i + 1) r
        ⟨rest.reply, rest.error, .attempt i pending :: .sleep (i + 1) :: rest.trace⟩

/-- Embedding of `SendWebhook` (part_005, media-capable version): an empty
URL returns immediately with no reply and no error; otherwise the body is
built once and up to 3 attempts are made. -/
def sendWebhook (url : Chars) (p : WebhookPayload)
    (oracle : Nat → AttemptOutcome) : SendResult :=
  if url = [] then ⟨[], none, []⟩
  else sendAttempts oracle (requestBody p) [] 0 3

/-- Number of HTTP attempts recorded in a trace. -/
def attemptCount (t : List WebhookEvent) : Nat :=
  t.countP (fun e => match e with | .attempt _ _ => true | .sleep _ => false)

/-- Sleeps that occur between two attempts of a trace (a sleep after the
last attempt is not between consecutive attempts). -/
def interAttemptSleeps : List WebhookEvent → List Nat
  | [] => []
  | .attempt _ _ :: rest => interAttemptSleeps rest
  | .sleep s :: rest =>
    if rest.any (fun e => match e with | .attempt _ _ => true | .sleep _ => false)
    then s :: interAttemptSleeps rest
    else interAttemptSleeps rest

/-- Body transmitted by the i-th attempt of a trace, when that attempt
occurred. -/
def sentBodyAt : List WebhookEvent → Nat → Option Chars
  | [], _ => none
  | .attempt j b :: rest, k => if j = k then some b else sentBodyAt rest k
  | .sleep _ :: rest, k => sentBodyAt rest k

/-! ## Session Runtime: inbound message pipeline
(user_repo.go, `handleEvent`, `events.Message` case) -/

/-- Model of `events.Message.Info` (whatsmeow `MessageInfo`): the fields the
handler reads. -/
structure MessageInfo where
  id : Chars
  senderUser : Chars
  chatUser : Chars
  isGroup : Bool
  pushName : Chars
  tsUnix : Nat
  tsText : Chars
deriving DecidableEq

/-- Model of the session row fields the message pipeline reads. -/
structure Session where
  webhookURL : Chars
  isGroupResponseEnabled : Bool
deriving DecidableEq

/-- Model of the live client's in-memory store: the paired JID (nil before
pairing) and the LID alias. -/
structure ClientStore where
  storeID : Option JID
  lid : JID
deriving DecidableEq

/-- Model of one analytics row as built by the handler. -/
structure AnalyticsRow where
  sessionID : Chars
  messageID : Chars
  fromNumber : Chars
  messageType : Chars
  isGroup : Bool
  isMention : Bool
  webhookSent : Bool
  webhookSuccess : Bool
  statusCode : Nat
  errorMessage : Option Chars
deriving DecidableEq

/-- World of one inbound message: the event data plus the responses of the
collaborators the handler consults (session row, live client, media
download, webhook endpoint, WA send).  The wall-clock response time is
time-dependent and not modelled. -/
structure MsgWorld where
  sessionID : Chars
  info : MessageInfo
  msg : WAMessage
  session : Option Session
  client : Option ClientStore
  download : Except Chars Chars
  httpOracle : Nat → AttemptOutcome
  sendOk : Bool

/-- Externally visible outcome of handling one inbound message. -/
structure HandleResult where
  incomingLogged : Bool
  webhookCalled : Bool
  analytics : Option AnalyticsRow
  replySent : Option Chars
  outgoingLogged : Bool
deriving DecidableEq

/-- Payload construction (pipeline steps before the empty filter): text from
conversation, else extended text, else image caption; message type becomes
`image` when an image part is present. -/
def builtPayload (w : MsgWorld) : WebhookPayload :=
  let p0 : WebhookPayload :=
    { sessionID := w.sessionID
      fromUser := w.info.senderUser
      toUser := []
      message := w.msg.conversation
      tsText := w.info.tsText
      tsUnix := w.info.tsUnix
      isGroup := w.info.isGroup
      groupInfo := none
      pushName := w.info.pushName
      messageType := str "text"
      mediaData := []
      mediaName := []
      mediaMimeType := [] }
  let p1 := if p0.message = [] then
      { p0 with message := (match w.msg.extendedText with | some e => e.text | none => []) }
    else p0
  match w.msg.image with
  | some img =>
    { p1 with
      messageType := str "image"
      message := if p1.message = [] then img.caption else p1.message }
  | none => p1

/-- The target JIDs the handler passes to the Mention Detector: the paired
store ID plus the LID alias when the latter is not the zero JID. -/
def botTargets (id : JID) (lid : JID) : List JID :=
  [id] ++ (if lid.user ≠ [] ∨ lid.server ≠ [] then [lid] else [])

/-- Group filter decision (source lines around `if v.Info.IsGroup`): drop
when group responses are disabled, or when a paired live client exists and
the Mention Detector rejects; a nil client or nil store ID falls through
and the message proceeds. -/
def groupDrop (w : MsgWorld) (session : Session) (p : WebhookPayload) : Bool :=
  if w.info.isGroup then
    if ¬ session.isGroupResponseEnabled then true
    else
      match w.client with
      | some c =>
        match c.storeID with
        | some id => ¬ isMentioned w.msg p.message (botTargets id c.lid)
        | none => false
      | none => false
  else false

/-- Media materialization step inside the webhook task: when an image part
is present, attach downloaded bytes, mime type and an extension-correct
filename, or append a diagnostic suffix to the text on failure. -/
def mediaStep (w : MsgWorld) (p : WebhookPayload) : WebhookPayload :=
  match w.msg.image with
  | none => p
  | some img =>
    match w.client with
    | none => { p with message := p.message ++ str " [Image Download Failed: Client not found]" }
    | some _ =>
      match w.download with
      | .error e =>
        { p with message := p.message ++ str " [Image Download Failed: " ++ e ++ [']'] }
      | .ok data =>
        let ext := if containsSub img.mimetype (str "png") then str "png"
          else if containsSub img.mimetype (str "jpeg") then str "jpg"
          else if containsSub img.mimetype (str "webp") then str "webp"
          else str "jpg"
        { p with
          mediaData := data
          mediaMimeType := img.mimetype
          mediaName := str "image_" ++ natToChars w.info.tsUnix ++ '.' :: ext }

/-- Embedding of the `events.Message` case of `handleEvent` (user_repo.go):
session lookup, payload construction, empty filter, incoming log, group
filter, media step, webhook dispatch, analytics write, reply send-back and
outgoing log.  Fire-and-forget tasks are flattened sequentially. -/
def handleMessage (w : MsgWorld) : HandleResult :=
  match w.session with
  | none => ⟨false, false, none, none, false⟩
  | some session =>
    let p := builtPayload w
    if p.message = [] ∧ p.messageType ≠ str "image" then
      ⟨false, false, none, none, false⟩
    else if groupDrop w session p then
      ⟨true, false, none, none, false⟩
    else
      let p2 := mediaStep w p
      let sw := sendWebhook session.webhookURL p2 w.httpOracle
      let row : AnalyticsRow :=
        { sessionID := w.sessionID
          messageID := w.info.id
          fromNumber := p2.fromUser
          messageType := p2.messageType
          isGroup := p2.isGroup
          isMention := false
          webhookSent := true
          webhookSuccess := sw.error = none
          statusCode := if sw.error.isSome then 500 else 200
          errorMessage := sw.error }
      match sw.error with
      | some _ => ⟨true, true, some row, none, false⟩
      | none =>
        if sw.reply ≠ [] then
          match w.client with
          | some _ => ⟨true, true, some row, some sw.reply, w.sendOk⟩
          | none => ⟨true, true, some row, none, false⟩
        else ⟨true, true, some row, none, false⟩

/-! ## Session Registry (part_013: `ClientManager.Connect`) -/

/-- Model of a live whatsmeow client handle in the registry. -/
structure LiveClient where
  isConnected : Bool
  store : ClientStore
deriving DecidableEq

/-- Model of a whatsmeow device record; `NewDevice` yields one with no ID. -/
structure DeviceRec where
  id : Option JID
deriving DecidableEq

/-- Model of the session row fields `Connect` reads. -/
structure ConnSession where
  status : Chars
  phoneNumber : Chars
  deviceInfo : Option Chars
deriving DecidableEq

/-- World of one `Connect(sessionID)` call: the registry map and the results
of the collaborators it consults. -/
structure ConnWorld where
  clients : List (Chars × LiveClient)
  session : Option ConnSession
  getDevice : JID → Option DeviceRec
  listOk : Bool
  allDevices : List DeviceRec
  connectOk : Bool

/-- Trace of the externally visible actions of one `Connect` call. -/
structure ConnectTrace where
  deviceLookups : Nat
  listedAll : Bool
  newDeviceCreated : Bool
  clientCreated : Bool
  healedJID : Option Chars
  qrPumpStarted : Bool
deriving DecidableEq

/-- Trace of a call that performed none of the observable actions. -/
def emptyTrace : ConnectTrace := ⟨0, false, false, false, none, false⟩

/-- Assoc-list lookup modelling a Go map read (`cm.Clients[sessionID]`). -/
def lookupAssoc {α : Type} : List (Chars × α) → Chars → Option α
  | [], _ => none
  | (k, v) :: rest, s => if k = s then some v else lookupAssoc rest s

/-- First listed device whose user and server match the normalized JID
(the fallback scan in `Connect`). -/
def findDeviceByUserServer (devices : List DeviceRec) (jid : JID) : Option DeviceRec :=
  devices.find? (fun dev =>
    match dev.id with
    | some d => d.user = jid.user ∧ d.server = jid.server
    | none => false)

/-- Embedding of `ClientManager.Connect` (part_013).  When a live client is
already registered, the source returns "connected" in both branches of the
`IsConnected` test (the comment keeps it deliberately); otherwise the
session row is loaded, a device record is resolved (direct lookup, then a
scan by user/server that heals the stored JID, then a fresh device), a
client is created and driven to QR or connected state. -/
def connect (w : ConnWorld) (sid : Chars) : Except Chars Chars × ConnectTrace :=
  match lookupAssoc w.clients sid with
  | some client =>
    if client.isConnected then (.ok (str "connected"), emptyTrace)
    else (.ok (str "connected"), emptyTrace)
  | none =>
    match w.session with
    | none => (.error (str "session not found"), emptyTrace)
    | some session =>
      let resolved : Option DeviceRec × ConnectTrace :=
        if session.phoneNumber ≠ [] then
          match normalizeSessionJID session.phoneNumber with
          | .error _ => (none, emptyTrace)
          | .ok jid =>
            match w.getDevice jid with
            | some d => (some d, { emptyTrace with deviceLookups := 1 })
            | none =>
              if w.listOk then
                match findDeviceByUserServer w.allDevices jid with
                | some dev =>
                  (some dev,
                   { emptyTrace with
                     deviceLookups := 1
                     listedAll := true
                     healedJID :=
                       match dev.id with
                       | some d =>
                         if d.string ≠ session.phoneNumber then some d.string else none
                       | none => none })
                | none =>
                  (none, { emptyTrace with deviceLookups := 1, listedAll := true })
              else (none, { emptyTrace with deviceLookups := 1, listedAll := true })
        else (none, emptyTrace)
      let devAndTrace : DeviceRec × ConnectTrace :=
        match resolved.1 with
        | some d => (d, resolved.2)
        | none => (⟨none⟩, { resolved.2 with newDeviceCreated := true })
      let trace := { devAndTrace.2 with clientCreated := true }
      match devAndTrace.1.id with
      | none =>
        if w.connectOk then (.ok (str "qr"), { trace with qrPumpStarted := true })
        else (.error (str "connect failed"), trace)
      | some _ =>
        if w.connectOk then (.ok (str "connected"), trace)
        else (.error (str "connect failed"), trace)

/-! ## Event Broadcaster (part_006: `Hub.Run`, `ServeWs`) -/

/-- Queue capacity of a subscriber, from `make(chan []byte, 256)` in
`ServeWs`. -/
def subQueueCap : Nat := 256

/-- Model of one websocket subscriber: an identifier, its bounded outbound
queue, and whether its queue has been closed. -/
structure Subscriber where
  cid : Nat
  send : List Chars
  closed : Bool
deriving DecidableEq

/-- Non-blocking enqueue of the Broadcast case: enqueue when the buffered
channel has room, otherwise close and drop the subscriber. -/
def procSub (msg : Chars) (c : Subscriber) : Subscriber × Bool :=
  if c.send.length < subQueueCap then ({ c with send := c.send ++ [msg] }, true)
  else ({ c with closed := true }, false)

/-- Embedding of the `Broadcast` case of `Hub.Run`: the subscriber set of
the target session id is traversed; subscribers with room get the message
appended, full ones are closed and removed.  Returns the new hub state and
the evicted subscribers. -/
def hubBroadcast : List (Chars × List Subscriber) → Chars → Chars →
    List (Chars × List Subscriber) × List Subscriber
  | [], _, _ => ([], [])
  | (k, subs) :: rest, sid, msg =>
    if k = sid then
      ((k, subs.filterMap (fun c =>
          let r := procSub msg c
          if r.2 then some r.1 else none)) :: rest,
       subs.filterMap (fun c =>
          let r := procSub msg c
          if r.2 then none else some r.1))
    else
      let r := hubBroadcast rest sid msg
      ((k, subs) :: r.1, r.2)

/-- Embedding of the `Register` case of `Hub.Run`. -/
def hubRegister (h : List (Chars × List Subscriber)) (sid : Chars)
    (c : Subscriber) : List (Chars × List Subscriber) :=
  match lookupAssoc h sid with
  | some _ => h.map (fun e => if e.1 = sid then (e.1, e.2 ++ [c]) else e)
  | none => h ++ [(sid, [c])]

/-- Embedding of the `Unregister` case of `Hub.Run`: remove the subscriber,
close its queue, and delete the session key when its set empties. -/
def hubUnregister (h : List (Chars × List Subscriber)) (sid : Chars)
    (cid : Nat) : List (Chars × List Subscriber) :=
  h.filterMap (fun e =>
    if e.1 = sid then
      let kept := e.2.filter (fun c => c.cid ≠ cid)
      if kept = [] then none else some (e.1, kept)
    else some e)

/-! ## Spec-side definitions and concrete instances used by the theorems -/

/-- Whether one attempt outcome counts as a failure for the retry loop
(transport error or status outside 2xx). -/
def isFailure : AttemptOutcome → Bool
  | .transportErr _ => true
  | .resp r => if 200 ≤ r.status ∧ r.status < 300 then false else true

/-- Reply extraction as the spec words it, for comparison with the
source-derived `extractText`: walk the value — if array, recurse into
element 0; if object, probe the keys in order returning the first non-empty
string, else recurse into `data` then `json`; if string, return it; in all
remaining cases return the empty string. -/
def extractTextSpec : Json → Chars
  | .arr xs =>
    match xs with
    | [] => []
    | x :: _ => extractTextSpec x
  | .obj fields =>
    match probeKeys.findSome? (fun k =>
        match jsonLookup k fields with
        | some (.str s) => if s = [] then none else some s
        | _ => none) with
    | some s => s
    | none =>
      match h : jsonLookup (str "data") fields with
      | some v => extractTextSpec v
      | none =>
        match h2 : jsonLookup (str "json") fields with
        | some v => extractTextSpec v
        | none => []
  | .str s => s
  | _ => []
termination_by j => jsize j
decreasing_by
  · simp [jsize, jsizeList]
    omega
  · exact jsonLookup_sizeOf h
  · exact jsonLookup_sizeOf h2

/-- Webhook endpoint that always answers 200 with a body decoding to
an array holding an object with an `output` key. -/
def okOracle : Nat → AttemptOutcome :=
  fun _ => .resp ⟨200, str "raw", some (.arr [.obj [(str "output", .str (str "Hi there"))]])⟩

/-- Webhook endpoint that always answers 404 with an empty body. -/
def failOracle404 : Nat → AttemptOutcome := fun _ => .resp ⟨404, [], none⟩

/-- Sample paired bot JID on the default user server. -/
def jidMain : JID := ⟨str "6281", DefaultUserServer, 12⟩

/-- Sample LID alias of the bot. -/
def jidLid : JID := ⟨str "222", HiddenUserServer, 0⟩

/-- Sample inbound-message world: a text message on a session with group
responses enabled and a paired live client; `grp` selects a group chat and
`men` whether the text mentions the bot. -/
def demoWorld (grp men : Bool) (oracle : Nat → AttemptOutcome) : MsgWorld :=
  { sessionID := str "s1"
    info := ⟨str "m1", str "628999", str "g1", grp, str "Bob", 100, str "2025-01-01T00:00:00Z"⟩
    msg := ⟨str (if men then "yo @6281" else "yo"), none, none, none, none, none, none, none, none⟩
    session := some ⟨str "http://hook", true⟩
    client := some ⟨some jidMain, jidLid⟩
    download := .ok []
    httpOracle := oracle
    sendOk := true }

/-- Sample registry world holding a live but not-connected client for
session `s1`. -/
def connWorldLive : ConnWorld :=
  ⟨[(str "s1", ⟨false, ⟨none, NewJID [] []⟩⟩)], none, fun _ => none, true, [], true⟩

/-- Sample payload carrying media bytes. -/
def mediaPayload : WebhookPayload :=
  ⟨str "s1", str "628999", [], str "look", str "2025-01-01T00:00:00Z", 100,
   false, none, str "Bob", str "image", str "IMGBYTES", str "image_100.jpg", str "image/jpeg"⟩

/-- Sample target JID on the group server (neither the default user server
nor the LID server). -/
def jidG : JID := ⟨str "6281", str "g.us", 0⟩

/-- Sample subscriber whose queue is full. -/
def fullSub : Subscriber := ⟨1, List.replicate subQueueCap (str "m"), false⟩

/-- Sample subscriber with room in its queue. -/
def roomSub : Subscriber := ⟨2, [], false⟩

/-- Sample hub with a full and a non-full subscriber on one session. -/
def demoHub : List (Chars × List Subscriber) := [(str "s", [fullSub, roomSub])]

/-! ## Theorems -/

/-- C5 counterexample: for a session whose registry entry is a live client
whose handle reports it is NOT connected, `Connect` still returns
"connected" (the claim predicts "qr"). -/
theorem connect_live_client_returns_connected_cex :
    lookupAssoc connWorldLive.clients (str "s1") =
      some ⟨false, ⟨none, NewJID [] []⟩⟩ ∧
    (connect connWorldLive (str "s1")).1 = .ok (str "connected") ∧
    (str "connected" : Chars) ≠ str "qr" :=
  ⟨rfl, rfl, by decide⟩

/-- C5 (amended): for every session id that already has a live client in
the registry, `Connect` performs no device lookup, device creation or
client creation and returns "connected" regardless of the connection state
the underlying handle reports. -/
theorem connect_live_client_no_lookup (w : ConnWorld) (sid : Chars)
    (c : LiveClient) (h : lookupAssoc w.clients sid = some c) :
    connect w sid = (.ok (str "connected"), emptyTrace) ∧
    emptyTrace.deviceLookups = 0 ∧ emptyTrace.newDeviceCreated = false ∧
    emptyTrace.clientCreated = false := by
  refine ⟨?_, rfl, rfl, rfl⟩
  unfold connect
  rw [h]
  by_cases hc : c.isConnected <;> simp [hc]

/-- C5 witness: the amended theorem applied to the sample registry world. -/
theorem connect_live_client_no_lookup_witness :
    connect connWorldLive (str "s1") = (.ok (str "connected"), emptyTrace) :=
  (connect_live_client_no_lookup connWorldLive (str "s1")
    ⟨false, ⟨none, NewJID [] []⟩⟩ rfl).1

/-- C10: for every inbound message whose processing reaches the analytics
write, the recorded status code is 200 exactly when the Dispatcher returned
no error and 500 otherwise, whatever status codes the HTTP exchanges
actually produced (the statement holds for every `w.httpOracle`). -/
theorem analytics_status_code_200_or_500 (w : MsgWorld) (s : Session)
    (hs : w.session = some s) (row : AnalyticsRow)
    (h : (handleMessage w).analytics = some row) :
    row.statusCode =
      if (sendWebhook s.webhookURL (mediaStep w (builtPayload w)) w.httpOracle).error = none
      then 200 else 500 := by
  simp only [handleMessage, hs] at h
  by_cases h1 : (builtPayload w).message = [] ∧ (builtPayload w).messageType ≠ str "image"
  · simp [h1] at h
  · rw [if_neg h1] at h
    by_cases h2 : groupDrop w s (builtPayload w) = true
    · simp [h2] at h
    · rw [if_neg h2] at h
      cases he : (sendWebhook s.webhookURL (mediaStep w (builtPayload w)) w.httpOracle).error with
      | none =>
        simp only [he] at h
        by_cases h3 : (sendWebhook s.webhookURL (mediaStep w (builtPayload w)) w.httpOracle).reply = []
        · rw [if_neg (fun hne => hne h3)] at h
          injection h with h
          rw [← h]
          simp [he]
        · rw [if_pos h3] at h
          cases hc : w.client with
          | some c =>
            rw [hc] at h
            injection h with h
            rw [← h]
            simp [he]
          | none =>
            rw [hc] at h
            injection h with h
            rw [← h]
            simp [he]
      | some e =>
        simp only [he] at h
        injection h with h
        rw [← h]
        simp [he]

/-- C10 witness: with an endpoint that answers 404 on every attempt, the
analytics row records status code 500. -/
theorem analytics_status_code_witness :
    (handleMessage (demoWorld false false failOracle404)).analytics.isSome = true ∧
    ∀ row, (handleMessage (demoWorld false false failOracle404)).analytics = some row →
      row.statusCode = 500 := by
  refine ⟨by decide, fun row h => ?_⟩
  have := analytics_status_code_200_or_500 (demoWorld false false failOracle404)
    ⟨str "http://hook", true⟩ rfl row h
  rw [this]
  decide

/-- C2: the code contradicts the intended meaning of `is_mention` — at a
group message whose text mentions the bot (the Mention Detector accepts and
the message therefore reaches the analytics write), the analytics row still
records `is_mention = false`. -/
theorem analytics_is_mention_false_despite_detector :
    isMentioned (demoWorld true true okOracle).msg
      (builtPayload (demoWorld true true okOracle)).message
      (botTargets jidMain jidLid) = true ∧
    ((handleMessage (demoWorld true true okOracle)).analytics.map AnalyticsRow.isMention)
      = some false := by
  constructor
  · decide
  · decide

theorem sendAttempts_fail_step (oracle : Nat → AttemptOutcome)
    (pending lastErr : Chars) (i r : Nat) (h : isFailure (oracle i) = true) :
    sendAttempts oracle pending lastErr i (r + 1) =
      ⟨(sendAttempts oracle [] (attemptFailMsg (oracle i)) (i + 1) r).reply,
       (sendAttempts oracle [] (attemptFailMsg (oracle i)) (i + 1) r).error,
       .attempt i pending :: .sleep (i + 1) ::
         (sendAttempts oracle [] (attemptFailMsg (oracle i)) (i + 1) r).trace⟩ := by
  cases ho : oracle i with
  | transportErr e => simp [sendAttempts, ho, attemptFailMsg]
  | resp r2 =>
    have hne : ¬(200 ≤ r2.status ∧ r2.status < 300) := by
      intro hc
      rw [ho] at h
      simp [isFailure, hc] at h
    simp [sendAttempts, ho, attemptFailMsg, hne]

theorem sendAttempts_trace_head (oracle : Nat → AttemptOutcome)
    (pending lastErr : Chars) (i r : Nat) :
    ∃ t, (sendAttempts oracle pending lastErr i (r + 1)).trace =
      .attempt i pending :: t := by
  cases ho : oracle i with
  | transportErr e =>
    exact ⟨.sleep (i + 1) :: (sendAttempts oracle [] e (i + 1) r).trace,
      by simp [sendAttempts, ho]⟩
  | resp r2 =>
    by_cases h2 : 200 ≤ r2.status ∧ r2.status < 300
    · exact ⟨[], by simp [sendAttempts, ho, h2]⟩
    · exact ⟨.sleep (i + 1) ::
        (sendAttempts oracle []
          (str "webhook returned status: " ++ natToChars r2.status) (i + 1) r).trace,
        by simp [sendAttempts, ho, h2]⟩

theorem sendAttempts_fail_trace (oracle : Nat → AttemptOutcome)
    (pending lastErr : Chars) (i r : Nat) (h : isFailure (oracle i) = true) :
    (sendAttempts oracle pending lastErr i (r + 1)).trace =
      .attempt i pending :: .sleep (i + 1) ::
        (sendAttempts oracle [] (attemptFailMsg (oracle i)) (i + 1) r).trace := by
  rw [sendAttempts_fail_step oracle pending lastErr i r h]

theorem sendAttempts_success_trace (oracle : Nat → AttemptOutcome)
    (pending lastErr : Chars) (i r : Nat) (r2 : HttpResponse)
    (ho : oracle i = .resp r2) (h2 : 200 ≤ r2.status ∧ r2.status < 300) :
    (sendAttempts oracle pending lastErr i (r + 1)).trace = [.attempt i pending] := by
  simp [sendAttempts, ho, h2]

theorem sendAttempts_sentBody (oracle : Nat → AttemptOutcome) :
    ∀ (fuel : Nat) (pending lastErr : Chars) (i k : Nat) (b : Chars),
    sentBodyAt (sendAttempts oracle pending lastErr i fuel).trace k = some b →
    (k = i ∧ b = pending) ∨ b = [] := by
  intro fuel
  induction fuel with
  | zero => intro pending lastErr i k b hb; simp [sendAttempts, sentBodyAt] at hb
  | succ r ih =>
    intro pending lastErr i k b hb
    by_cases hf : isFailure (oracle i) = true
    · rw [sendAttempts_fail_trace oracle pending lastErr i r hf] at hb
      by_cases hk : i = k
      · rw [sentBodyAt, if_pos hk] at hb
        exact .inl ⟨hk.symm, by injection hb with hb; exact hb.symm⟩
      · rw [sentBodyAt, if_neg hk, sentBodyAt] at hb
        rcases ih [] _ (i + 1) k b hb with ⟨_, hb2⟩ | hb2
        · exact .inr hb2
        · exact .inr hb2
    · cases ho : oracle i with
      | transportErr e => rw [ho] at hf; simp [isFailure] at hf
      | resp r2 =>
        by_cases h2 : 200 ≤ r2.status ∧ r2.status < 300
        · rw [sendAttempts_success_trace oracle pending lastErr i r r2 ho h2] at hb
          by_cases hk : i = k
          · rw [sentBodyAt, if_pos hk] at hb
            exact .inl ⟨hk.symm, by injection hb with hb; exact hb.symm⟩
          · rw [sentBodyAt, if_neg hk, sentBodyAt] at hb
            exact absurd hb (by simp)
        · rw [ho] at hf
          simp [isFailure, h2] at hf

/-- C3: for a non-empty webhook URL, when every attempt fails, `SendWebhook`
performs exactly 3 attempts, the sleeps between consecutive attempts are
1 s and 2 s, and it returns an empty reply with a wrapped error noting the
last observed failure. -/
theorem webhook_retries_three_attempts (url : Chars) (p : WebhookPayload)
    (oracle : Nat → AttemptOutcome) (hurl : url ≠ [])
    (hfail : ∀ i, i < 3 → isFailure (oracle i) = true) :
    attemptCount (sendWebhook url p oracle).trace = 3 ∧
    interAttemptSleeps (sendWebhook url p oracle).trace = [1, 2] ∧
    (sendWebhook url p oracle).reply = [] ∧
    (sendWebhook url p oracle).error =
      some (str "failed to send webhook after retries: " ++ attemptFailMsg (oracle 2)) := by
  have e0 : sendAttempts oracle (requestBody p) [] 0 3 =
      ⟨(sendAttempts oracle [] (attemptFailMsg (oracle 0)) 1 2).reply,
       (sendAttempts oracle [] (attemptFailMsg (oracle 0)) 1 2).error,
       .attempt 0 (requestBody p) :: .sleep 1 ::
         (sendAttempts oracle [] (attemptFailMsg (oracle 0)) 1 2).trace⟩ :=
    sendAttempts_fail_step oracle (requestBody p) [] 0 2 (hfail 0 (by omega))
  have e1 : sendAttempts oracle [] (attemptFailMsg (oracle 0)) 1 2 =
      ⟨(sendAttempts oracle [] (attemptFailMsg (oracle 1)) 2 1).reply,
       (sendAttempts oracle [] (attemptFailMsg (oracle 1)) 2 1).error,
       .attempt 1 [] :: .sleep 2 ::
         (sendAttempts oracle [] (attemptFailMsg (oracle 1)) 2 1).trace⟩ :=
    sendAttempts_fail_step oracle [] (attemptFailMsg (oracle 0)) 1 1 (hfail 1 (by omega))
  have e2 : sendAttempts oracle [] (attemptFailMsg (oracle 1)) 2 1 =
      ⟨(sendAttempts oracle [] (attemptFailMsg (oracle 2)) 3 0).reply,
       (sendAttempts oracle [] (attemptFailMsg (oracle 2)) 3 0).error,
       .attempt 2 [] :: .sleep 3 ::
         (sendAttempts oracle [] (attemptFailMsg (oracle 2)) 3 0).trace⟩ :=
    sendAttempts_fail_step oracle [] (attemptFailMsg (oracle 1)) 2 0 (hfail 2 (by omega))
  have eend : sendAttempts oracle [] (attemptFailMsg (oracle 2)) 3 0 =
      ⟨[], some (str "failed to send webhook after retries: " ++ attemptFailMsg (oracle 2)), []⟩ :=
    rfl
  have hsw : sendWebhook url p oracle = sendAttempts oracle (requestBody p) [] 0 3 := by
    rw [sendWebhook, if_neg hurl]
  rw [hsw, e0, e1, e2, eend]
  refine ⟨rfl, ?_, rfl, rfl⟩
  simp [interAttemptSleeps, List.any]

/-- C3 witness: the retry property applied to a concrete URL, payload and an
endpoint answering 404 on every attempt. -/
theorem webhook_retries_three_attempts_witness :
    attemptCount (sendWebhook (str "http://hook") mediaPayload failOracle404).trace = 3 ∧
    interAttemptSleeps (sendWebhook (str "http://hook") mediaPayload failOracle404).trace = [1, 2] ∧
    (sendWebhook (str "http://hook") mediaPayload failOracle404).reply = [] ∧
    (sendWebhook (str "http://hook") mediaPayload failOracle404).error =
      some (str "failed to send webhook after retries: " ++ attemptFailMsg (failOracle404 2)) :=
  webhook_retries_three_attempts (str "http://hook") mediaPayload failOracle404
    (by decide) (by decide)

/-- C4 counterexample: at a concrete media payload against an endpoint that
fails every attempt, the first attempt transmits the complete multipart
body but the retry transmits the exhausted (empty) reader, so it does not
send the same non-empty body again. -/
theorem webhook_retry_body_not_rebuilt_cex :
    mediaPayload.mediaData ≠ [] ∧
    sentBodyAt (sendWebhook (str "http://hook") mediaPayload failOracle404).trace 0 =
      some (multipartEncode mediaPayload) ∧
    sentBodyAt (sendWebhook (str "http://hook") mediaPayload failOracle404).trace 1 =
      some [] ∧
    multipartEncode mediaPayload ≠ [] := by
  refine ⟨by decide, by decide, by decide, by decide⟩

/-- C4 (amended): for every payload carrying media bytes, the multipart
request body is built once before the retry loop; the first attempt
transmits the complete non-empty body, and every later attempt transmits
the exhausted (empty) reader instead of the original body. -/
theorem webhook_retry_body_exhausted (url : Chars) (p : WebhookPayload)
    (oracle : Nat → AttemptOutcome) (hm : p.mediaData ≠ []) (hurl : url ≠ []) :
    sentBodyAt (sendWebhook url p oracle).trace 0 = some (multipartEncode p) ∧
    multipartEncode p ≠ [] ∧
    (∀ i b, i ≠ 0 → sentBodyAt (sendWebhook url p oracle).trace i = some b → b = []) := by
  have hsw : sendWebhook url p oracle = sendAttempts oracle (multipartEncode p) [] 0 3 := by
    rw [sendWebhook, if_neg hurl, requestBody, if_pos hm]
  refine ⟨?_, ?_, ?_⟩
  · obtain ⟨t, ht⟩ := sendAttempts_trace_head oracle (multipartEncode p) [] 0 2
    rw [hsw, ht]
    simp [sentBodyAt]
  · simp [multipartEncode, multipartField, str]
  · intro i b hi hb
    rw [hsw] at hb
    rcases sendAttempts_sentBody oracle 3 (multipartEncode p) [] 0 i b hb with ⟨hk, _⟩ | hb2
    · exact absurd hk hi
    · exact hb2

/-- C4 witness: the amended statement applied to the concrete media payload
and the always-failing endpoint. -/
theorem webhook_retry_body_exhausted_witness :
    sentBodyAt (sendWebhook (str "http://hook") mediaPayload failOracle404).trace 0 =
      some (multipartEncode mediaPayload) ∧
    multipartEncode mediaPayload ≠ [] :=
  ⟨(webhook_retry_body_exhausted (str "http://hook") mediaPayload failOracle404
      (by decide) (by decide)).1,
   (webhook_retry_body_exhausted (str "http://hook") mediaPayload failOracle404
      (by decide) (by decide)).2.1⟩

/-- C1: for a group message that passes the empty-content filter, handled
with a live paired client (store ID present), when the Dispatcher would
succeed with a non-empty reply, a reply is sent back iff group responses
are enabled and the Mention Detector accepts; and when group responses are
disabled or the detector rejects, no webhook call and no outbound send
occur. -/
theorem group_reply_iff_enabled_and_mentioned (w : MsgWorld) (s : Session)
    (c : ClientStore) (id : JID)
    (hs : w.session = some s) (hc : w.client = some c) (hid : c.storeID = some id)
    (hg : w.info.isGroup = true)
    (hfilter : ¬((builtPayload w).message = [] ∧ (builtPayload w).messageType ≠ str "image"))
    (hok : (sendWebhook s.webhookURL (mediaStep w (builtPayload w)) w.httpOracle).error = none)
    (hrep : (sendWebhook s.webhookURL (mediaStep w (builtPayload w)) w.httpOracle).reply ≠ []) :
    ((handleMessage w).replySent.isSome = true ↔
      (s.isGroupResponseEnabled = true ∧
       isMentioned w.msg (builtPayload w).message (botTargets id c.lid) = true)) ∧
    (¬(s.isGroupResponseEnabled = true ∧
       isMentioned w.msg (builtPayload w).message (botTargets id c.lid) = true) →
      (handleMessage w).webhookCalled = false ∧ (handleMessage w).replySent = none) := by
  have hdrop : groupDrop w s (builtPayload w) =
      (if ¬ s.isGroupResponseEnabled = true then true
       else !(isMentioned w.msg (builtPayload w).message (botTargets id c.lid))) := by
    simp [groupDrop, hg, hc, hid]
  by_cases hen : s.isGroupResponseEnabled = true
  · by_cases hmen : isMentioned w.msg (builtPayload w).message (botTargets id c.lid) = true
    · have hd : ¬(groupDrop w s (builtPayload w) = true) := by
        rw [hdrop]
        simp [hen, hmen]
      have hrs : (handleMessage w).replySent =
          some (sendWebhook s.webhookURL (mediaStep w (builtPayload w)) w.httpOracle).reply := by
        simp only [handleMessage, hs]
        rw [if_neg hfilter, if_neg hd]
        simp only [hok, hc]
        rw [if_pos hrep]
      constructor
      · rw [hrs]
        simp [hen, hmen]
      · intro hcon
        exact absurd ⟨hen, hmen⟩ hcon
    · have hd : groupDrop w s (builtPayload w) = true := by
        rw [hdrop]
        simp [hen]
        simp at hmen
        simp [hmen]
      have hres : handleMessage w = ⟨true, false, none, none, false⟩ := by
        simp only [handleMessage, hs]
        rw [if_neg hfilter, if_pos hd]
      rw [hres]
      constructor
      · simp [hmen]
      · intro _
        exact ⟨rfl, rfl⟩
  · have hd : groupDrop w s (builtPayload w) = true := by
      rw [hdrop]
      simp [hen]
    have hres : handleMessage w = ⟨true, false, none, none, false⟩ := by
      simp only [handleMessage, hs]
      rw [if_neg hfilter, if_pos hd]
    rw [hres]
    constructor
    · simp [hen]
    · intro _
      exact ⟨rfl, rfl⟩

/-- C1 witness: at a concrete group message mentioning the bot, with group
responses enabled and a webhook returning 200 with an `output` reply, a
reply is sent. -/
theorem group_reply_iff_witness :
    (handleMessage (demoWorld true true okOracle)).replySent.isSome = true :=
  (group_reply_iff_enabled_and_mentioned (demoWorld true true okOracle)
    ⟨str "http://hook", true⟩ ⟨some jidMain, jidLid⟩ jidMain
    rfl rfl rfl rfl (by decide) (by decide) (by decide)).1.mpr ⟨by decide, by decide⟩

/-- C7 counterexample: for a target JID on the group server (not the
default user server), the search-token set still contains the LID full
string, so the LID tokens are not added "exactly when the primary JID is on
the default user server". -/
theorem mention_tokens_lid_cex :
    (NewJID (str "6281") HiddenUserServer).string ∈ searchTokens [jidG] ∧
    jidG.server ≠ DefaultUserServer := by
  constructor
  · decide
  · decide

/-- C7 (amended): the token set of a non-degenerate target consists of its
bare user, full string and non-AD string, plus the LID-server user and LID
full string exactly when the target's server is NOT the LID server and its
user part is non-empty; token sets concatenate over targets; and the
detector returns true iff some context-info mention entry contains a token
as a substring, or the lower-cased text contains `@` followed by a
lower-cased token. -/
theorem mention_tokens_characterization :
    (∀ jid : JID, ¬(jid.user = [] ∧ jid.server = []) →
      searchTokens [jid] =
        [jid.user, jid.string, jid.toNonAD.string] ++
        (if jid.server ≠ HiddenUserServer ∧ jid.user ≠ [] then
          [jid.user, jid.user ++ '@' :: HiddenUserServer]
        else [])) ∧
    (∀ (jid : JID) (rest : List JID),
      searchTokens (jid :: rest) = jidTokens jid ++ searchTokens rest) ∧
    (∀ (msg : WAMessage) (text : Chars) (targets : List JID),
      isMentioned msg text targets = true ↔
        ((∃ ci, some ci ∈ collectContextInfos msg ∧
          ∃ m ∈ ci.mentionedJID, ∃ t ∈ searchTokens targets, containsSub m t = true) ∨
         (∃ t ∈ searchTokens targets,
           containsSub (lowerChars text) ('@' :: lowerChars t) = true))) := by
  refine ⟨?_, ?_, ?_⟩
  · intro jid hdeg
    have hbase : searchTokens [jid] = jidTokens jid := by
      simp [searchTokens]
    rw [hbase, jidTokens, if_neg hdeg]
    by_cases hcond : jid.server ≠ HiddenUserServer ∧ jid.user ≠ []
    · rw [if_pos hcond, if_pos hcond]
      have hlid : (NewJID jid.user HiddenUserServer).string =
          jid.user ++ '@' :: HiddenUserServer := by
        rw [NewJID, JID.string]
        simp [hcond.2]
      rw [hlid]
      rfl
    · rw [if_neg hcond, if_neg hcond]
  · intro jid rest
    rfl
  · intro msg text targets
    rw [isMentioned]
    by_cases ha : (collectContextInfos msg).any (fun ctx =>
        match ctx with
        | none => false
        | some c => c.mentionedJID.any (fun m =>
            (searchTokens targets).any (fun t => containsSub m t))) = true
    · rw [if_pos ha]
      constructor
      · intro _
        left
        rcases List.any_eq_true.mp ha with ⟨octx, hmem, hoc⟩
        cases octx with
        | none => simp at hoc
        | some ci =>
          rcases List.any_eq_true.mp hoc with ⟨m, hm, hmt⟩
          rcases List.any_eq_true.mp hmt with ⟨t, ht, htc⟩
          exact ⟨ci, hmem, m, hm, t, ht, htc⟩
      · intro _
        rfl
    · rw [if_neg ha]
      constructor
      · intro hb
        right
        rcases List.any_eq_true.mp hb with ⟨t, ht, htc⟩
        exact ⟨t, ht, htc⟩
      · intro hor
        rcases hor with ⟨ci, hmem, m, hm, t, ht, htc⟩ | ⟨t, ht, htc⟩
        · exact absurd (List.any_eq_true.mpr
            ⟨some ci, hmem, List.any_eq_true.mpr ⟨m, hm, List.any_eq_true.mpr ⟨t, ht, htc⟩⟩⟩) ha
        · exact List.any_eq_true.mpr ⟨t, ht, htc⟩

/-- C7 witness: the token-set characterization evaluated at the
group-server target. -/
theorem mention_tokens_characterization_witness :
    searchTokens [jidG] =
      [str "6281", str "6281@g.us", str "6281@g.us", str "6281", str "6281@lid"] := by
  rw [mention_tokens_characterization.1 jidG (by decide)]
  decide

theorem hubBroadcast_state (h : List (Chars × List Subscriber)) (sid msg : Chars)
    (subs : List Subscriber) (hs : lookupAssoc h sid = some subs) :
    lookupAssoc (hubBroadcast h sid msg).1 sid =
      some (subs.filterMap (fun c =>
        let r := procSub msg c
        if r.2 then some r.1 else none)) ∧
    (hubBroadcast h sid msg).2 =
      subs.filterMap (fun c =>
        let r := procSub msg c
        if r.2 then none else some r.1) := by
  induction h with
  | nil => simp [lookupAssoc] at hs
  | cons e rest ih =>
    obtain ⟨k, v⟩ := e
    rw [lookupAssoc] at hs
    by_cases hk : k = sid
    · rw [if_pos hk] at hs
      injection hs with hs
      subst hs
      rw [hubBroadcast, if_pos hk]
      constructor
      · rw [lookupAssoc, if_pos hk]
      · rfl
    · rw [if_neg hk] at hs
      obtain ⟨ih1, ih2⟩ := ih hs
      rw [hubBroadcast, if_neg hk]
      constructor
      · rw [lookupAssoc, if_neg hk]
        exact ih1
      · exact ih2

theorem procSub_cid (msg : Chars) (c : Subscriber) : (procSub msg c).1.cid = c.cid := by
  rw [procSub]
  by_cases hlen : c.send.length < subQueueCap
  · rw [if_pos hlen]
  · rw [if_neg hlen]

/-- C8: a subscriber whose bounded queue (capacity 256) is full when a
publish for its session id is processed is closed and removed from the
session's subscriber set; no later publish enqueues anything for it; and
the publish still reaches the session's other subscribers that have room. -/
theorem slow_subscriber_evicted (h : List (Chars × List Subscriber))
    (sid msg msg2 : Chars) (subs : List Subscriber) (c : Subscriber)
    (hs : lookupAssoc h sid = some subs) (hc : c ∈ subs)
    (hinj : ∀ a ∈ subs, ∀ b ∈ subs, a.cid = b.cid → a = b)
    (hfull : ¬(c.send.length < subQueueCap)) :
    ({ c with closed := true } ∈ (hubBroadcast h sid msg).2) ∧
    (∀ subs2, lookupAssoc (hubBroadcast h sid msg).1 sid = some subs2 →
      (∀ d ∈ subs2, d.cid ≠ c.cid) ∧
      (∀ d ∈ subs, d.cid ≠ c.cid → d.send.length < subQueueCap →
        { d with send := d.send ++ [msg] } ∈ subs2) ∧
      (∀ subs3,
        lookupAssoc (hubBroadcast (hubBroadcast h sid msg).1 sid msg2).1 sid = some subs3 →
        ∀ d ∈ subs3, d.cid ≠ c.cid)) := by
  obtain ⟨hl, he⟩ := hubBroadcast_state h sid msg subs hs
  have hkeepNo : ∀ d ∈ subs.filterMap (fun c2 =>
      let r := procSub msg c2
      if r.2 then some r.1 else none), d.cid ≠ c.cid := by
    intro d hd hdc
    rcases List.mem_filterMap.mp hd with ⟨e, hemem, hfe⟩
    by_cases hlen : e.send.length < subQueueCap
    · simp only [procSub, if_pos hlen] at hfe
      injection hfe with hfe
      have hec : e.cid = c.cid := by rw [← hfe] at hdc; exact hdc
      have := hinj e hemem c hc hec
      rw [this] at hlen
      exact hfull hlen
    · simp only [procSub, if_neg hlen] at hfe
      exact absurd hfe (by simp)
  constructor
  · rw [he]
    refine List.mem_filterMap.mpr ⟨c, hc, ?_⟩
    simp only [procSub, if_neg hfull]
    rfl
  · intro subs2 hsubs2
    rw [hl] at hsubs2
    injection hsubs2 with hsubs2
    subst hsubs2
    refine ⟨hkeepNo, ?_, ?_⟩
    · intro d hd hdc hlen
      refine List.mem_filterMap.mpr ⟨d, hd, ?_⟩
      simp only [procSub, if_pos hlen]
      rfl
    · intro subs3 hsubs3 d hd hdc
      obtain ⟨hl2, _⟩ := hubBroadcast_state (hubBroadcast h sid msg).1 sid msg2 _ hl
      rw [hl2] at hsubs3
      injection hsubs3 with hsubs3
      subst hsubs3
      rcases List.mem_filterMap.mp hd with ⟨e, hemem, hfe⟩
      have hcid : d.cid = e.cid := by
        by_cases hlen : e.send.length < subQueueCap
        · simp only [procSub, if_pos hlen] at hfe
          injection hfe with hfe
          rw [← hfe]
        · simp only [procSub, if_neg hlen] at hfe
          exact absurd hfe (by simp)
      rw [hcid] at hdc
      exact hkeepNo e hemem hdc

/-- C8 witness: in the sample hub, the full subscriber is closed and
evicted by one publish while the other subscriber receives the message. -/
theorem slow_subscriber_evicted_witness :
    ({ fullSub with closed := true } ∈ (hubBroadcast demoHub (str "s") (str "x")).2) :=
  (slow_subscriber_evicted demoHub (str "s") (str "x") (str "y")
    [fullSub, roomSub] fullSub rfl (by decide) (by decide) (by decide)).1

theorem probeFirst_eq_findSome (fields : List (Chars × Json)) :
    ∀ ks : List Chars, probeFirst fields ks =
      ks.findSome? (fun k =>
        match jsonLookup k fields with
        | some (.str s) => if s = [] then none else some s
        | _ => none) := by
  intro ks
  induction ks with
  | nil => rfl
  | cons k ks ih =>
    rw [probeFirst, List.findSome?_cons]
    cases hjk : jsonLookup k fields with
    | none => simp only [hjk]; exact ih
    | some v =>
      cases v with
      | str s =>
        by_cases hse : s = []
        · simp only [hjk, hse]
          simpa using ih
        · simp only [hjk, hse]
          simp [hse]
      | num n => simp only [hjk]; exact ih
      | bool b => simp only [hjk]; exact ih
      | null => simp only [hjk]; exact ih
      | arr xs => simp only [hjk]; exact ih
      | obj fs => simp only [hjk]; exact ih

theorem extractTextF_spec : ∀ (fuel : Nat) (j : Json), jsize j ≤ fuel →
    extractTextF fuel j = extractTextSpec j := by
  intro fuel
  induction fuel with
  | zero => intro j hj; have := json_sizeOf_pos j; omega
  | succ n ih =>
    intro j hj
    cases j with
    | str s => rw [extractTextSpec]; rfl
    | num n2 => simp [extractTextSpec, extractTextF]
    | bool b => simp [extractTextSpec, extractTextF]
    | null => simp [extractTextSpec, extractTextF]
    | arr xs =>
      cases xs with
      | nil => rw [extractTextSpec]; rfl
      | cons x rest =>
        have hx : jsize x ≤ n := by
          have : jsize (Json.arr (x :: rest)) = 1 + (1 + jsize x + jsizeList rest) := by
            rw [jsize, jsizeList]
          omega
        rw [extractTextSpec]
        simp only [extractTextF]
        exact ih x hx
    | obj fields =>
      rw [extractTextSpec, ← probeFirst_eq_findSome]
      simp only [extractTextF]
      cases hp : probeFirst fields probeKeys with
      | some s => rfl
      | none =>
        simp only []
        cases hd : jsonLookup (str "data") fields with
        | some v =>
          have := jsonLookup_sizeOf hd
          exact ih v (by omega)
        | none =>
          cases hjs : jsonLookup (str "json") fields with
          | some v =>
            have := jsonLookup_sizeOf hjs
            exact ih v (by omega)
          | none => rfl

theorem extractText_eq_spec (j : Json) : extractText j = extractTextSpec j :=
  extractTextF_spec (jsize j) j (Nat.le_refl _)

/-- C6: reply extraction from a successful (2xx) response body — when JSON
parsing fails the raw body is returned; when it succeeds the decoded value
is walked exactly as the spec words it (arrays recurse into element 0,
objects probe `output, text, message, response, body, content` for the
first non-empty string then recurse into `data` then `json`, strings are
returned as-is, and every remaining case yields the empty string); and the
2xx branch of the retry loop returns exactly this extraction. -/
theorem reply_extraction_spec :
    (∀ raw : Chars, replyOfBody raw none = raw) ∧
    (∀ (raw : Chars) (j : Json), replyOfBody raw (some j) = extractTextSpec j) ∧
    (∀ (oracle : Nat → AttemptOutcome) (pending lastErr : Chars) (i r : Nat)
       (r2 : HttpResponse), oracle i = .resp r2 →
       200 ≤ r2.status → r2.status < 300 →
       (sendAttempts oracle pending lastErr i (r + 1)).reply =
         replyOfBody r2.rawBody r2.parsedBody) := by
  refine ⟨fun raw => rfl, fun raw j => extractText_eq_spec j, ?_⟩
  intro oracle pending lastErr i r r2 ho h1 h2
  simp [sendAttempts, ho, h1, h2]

/-- C6 witness: the 2xx-branch conjunct applied to the sample endpoint that
answers 200 with an array-wrapped `output` object. -/
theorem reply_extraction_spec_witness :
    (sendAttempts okOracle (str "body") [] 0 3).reply =
      replyOfBody (str "raw")
        (some (.arr [.obj [(str "output", .str (str "Hi there"))]])) :=
  reply_extraction_spec.2.2 okOracle (str "body") [] 0 2
    ⟨200, str "raw", some (.arr [.obj [(str "output", .str (str "Hi there"))]])⟩
    rfl (by decide) (by decide)

theorem splitChar_ne_nil (sep : Char) (l : Chars) : splitChar sep l ≠ [] := by
  cases l with
  | nil => simp [splitChar]
  | cons c rest =>
    rw [splitChar]
    by_cases hc : c = sep
    · simp [hc]
    · rw [if_neg hc]
      cases hr : splitChar sep rest with
      | nil => simp
      | cons p ps => simp

theorem splitChar_of_not_mem {sep : Char} {l : Chars} (h : sep ∉ l) :
    splitChar sep l = [l] := by
  induction l with
  | nil => rfl
  | cons c rest ih =>
    have hc : ¬(c = sep) := by
      intro he
      exact h (he ▸ List.mem_cons_self c rest)
    have hrest : sep ∉ rest := fun hm => h (List.mem_cons_of_mem c hm)
    rw [splitChar, if_neg hc, ih hrest]

theorem splitChar_append {sep : Char} {A : Chars} (B : Chars) (h : sep ∉ A) :
    splitChar sep (A ++ sep :: B) = A :: splitChar sep B := by
  induction A with
  | nil => simp [splitChar]
  | cons c rest ih =>
    have hc : ¬(c = sep) := by
      intro he
      exact h (he ▸ List.mem_cons_self c rest)
    have hrest : sep ∉ rest := fun hm => h (List.mem_cons_of_mem c hm)
    rw [List.cons_append, splitChar, if_neg hc, ih hrest]

theorem splitChar_eq_single {sep : Char} {l x : Chars}
    (h : splitChar sep l = [x]) : x = l ∧ sep ∉ l := by
  induction l generalizing x with
  | nil =>
    rw [splitChar] at h
    injection h with h1 _
    exact ⟨h1.symm, by simp⟩
  | cons c rest ih =>
    rw [splitChar] at h
    by_cases hc : c = sep
    · rw [if_pos hc] at h
      injection h with h1 h2
      exact absurd h2 (splitChar_ne_nil sep rest)
    · rw [if_neg hc] at h
      cases hr : splitChar sep rest with
      | nil => exact absurd hr (splitChar_ne_nil sep rest)
      | cons p ps =>
        rw [hr] at h
        injection h with h1 h2
        subst h2
        obtain ⟨hp, hmem⟩ := ih hr
        subst hp
        constructor
        · rw [h1]
        · intro hm
          rcases List.mem_cons.mp hm with he | hm2
          · exact hc he.symm
          · exact hmem hm2

theorem splitChar_eq_pair {sep : Char} {l a b : Chars}
    (h : splitChar sep l = [a, b]) :
    sep ∉ a ∧ sep ∉ b ∧ l = a ++ sep :: b := by
  induction l generalizing a b with
  | nil =>
    rw [splitChar] at h
    injection h with _ h2
    exact absurd h2 (by simp)
  | cons c rest ih =>
    rw [splitChar] at h
    by_cases hc : c = sep
    · rw [if_pos hc] at h
      injection h with h1 h2
      subst h1
      obtain ⟨hb, hmem⟩ := splitChar_eq_single h2
      subst hb
      exact ⟨by simp, hmem, by simp [hc]⟩
    · rw [if_neg hc] at h
      cases hr : splitChar sep rest with
      | nil => exact absurd hr (splitChar_ne_nil sep rest)
      | cons p ps =>
        rw [hr] at h
        injection h with h1 h2
        subst h1
        cases ps with
        | nil => injection h2
        | cons q qs =>
          injection h2 with h3 h4
          subst h3
          cases qs with
          | cons _ _ => injection h4
          | nil =>
            obtain ⟨hp, hb, hrest⟩ := ih hr
            refine ⟨?_, hb, ?_⟩
            · intro hm
              rcases List.mem_cons.mp hm with he | hm2
              · exact hc he.symm
              · exact hp hm2
            · rw [List.cons_append, ← hrest]

theorem containsChar_eq_true {l : Chars} {c : Char} :
    containsChar l c = true ↔ c ∈ l := by
  simp [containsChar]

theorem natDigitsRevAux_congr : ∀ (f1 f2 n : Nat), n < f1 → n < f2 →
    natDigitsRevAux f1 n = natDigitsRevAux f2 n := by
  intro f1
  induction f1 with
  | zero => intro f2 n h1; omega
  | succ f ih =>
    intro f2 n h1 h2
    cases f2 with
    | zero => omega
    | succ g =>
      rw [natDigitsRevAux, natDigitsRevAux]
      by_cases hn : n < 10
      · rw [if_pos hn, if_pos hn]
      · rw [if_neg hn, if_neg hn]
        have hdiv : n / 10 < n := Nat.div_lt_self (by omega) (by omega)
        rw [ih g (n / 10) (by omega) (by omega)]

theorem natDigitsRev_unfold (n : Nat) :
    natDigitsRev n = if n < 10 then [Char.ofNat (48 + n)]
      else Char.ofNat (48 + n % 10) :: natDigitsRev (n / 10) := by
  rw [natDigitsRev, natDigitsRevAux]
  by_cases hn : n < 10
  · rw [if_pos hn, if_pos hn]
  · rw [if_neg hn, if_neg hn, natDigitsRev]
    have hdiv : n / 10 < n := Nat.div_lt_self (by omega) (by omega)
    rw [natDigitsRevAux_congr n (n / 10 + 1) (n / 10) (by omega) (by omega)]

theorem natDigitsRev_digits (n : Nat) :
    ∀ c ∈ natDigitsRev n, ∃ d, d < 10 ∧ c = Char.ofNat (48 + d) := by
  induction n using Nat.strong_induction_on with
  | _ n ih =>
    intro c hc
    rw [natDigitsRev_unfold] at hc
    by_cases hn : n < 10
    · rw [if_pos hn] at hc
      rcases List.mem_singleton.mp hc with rfl
      exact ⟨n, hn, rfl⟩
    · rw [if_neg hn] at hc
      rcases List.mem_cons.mp hc with rfl | hc2
      · exact ⟨n % 10, Nat.mod_lt n (by omega), rfl⟩
      · exact ih (n / 10) (Nat.div_lt_self (by omega) (by omega)) c hc2

theorem digit_char_facts (d : Nat) (hd : d < 10) :
    (Char.ofNat (48 + d)).isDigit = true ∧ Char.ofNat (48 + d) ≠ '@' ∧
    Char.ofNat (48 + d) ≠ ':' ∧ (Char.ofNat (48 + d)).isWhitespace = false ∧
    (Char.ofNat (48 + d)).toNat = 48 + d := by
  interval_cases d <;> exact ⟨by decide, by decide, by decide, by decide, by decide⟩

theorem natToChars_facts (n : Nat) :
    natToChars n ≠ [] ∧ (∀ c ∈ natToChars n, c.isDigit = true) ∧
    '@' ∉ natToChars n ∧ ':' ∉ natToChars n := by
  have hmem : ∀ c ∈ natToChars n, ∃ d, d < 10 ∧ c = Char.ofNat (48 + d) := by
    intro c hc
    exact natDigitsRev_digits n c (List.mem_reverse.mp hc)
  refine ⟨?_, ?_, ?_, ?_⟩
  · rw [natToChars]
    intro he
    have : natDigitsRev n = [] := by
      have := congrArg List.reverse he
      simpa using this
    rw [natDigitsRev_unfold] at this
    by_cases hn : n < 10
    · rw [if_pos hn] at this
      injection this
    · rw [if_neg hn] at this
      injection this
  · intro c hc
    obtain ⟨d, hd, rfl⟩ := hmem c hc
    exact (digit_char_facts d hd).1
  · intro hc
    obtain ⟨d, hd, he⟩ := hmem _ hc
    exact (digit_char_facts d hd).2.1 he.symm
  · intro hc
    obtain ⟨d, hd, he⟩ := hmem _ hc
    exact (digit_char_facts d hd).2.2.1 he.symm

theorem digitsVal_append (l : Chars) (c : Char) :
    digitsVal (l ++ [c]) = 10 * digitsVal l + (c.toNat - 48) := by
  rw [digitsVal, digitsVal, List.foldl_append]
  simp
  omega

theorem digitsVal_natToChars (n : Nat) : digitsVal (natToChars n) = n := by
  induction n using Nat.strong_induction_on with
  | _ n ih =>
    by_cases hn : n < 10
    · interval_cases n <;> decide
    · have hsplit : natToChars n = natToChars (n / 10) ++ [Char.ofNat (48 + n % 10)] := by
        rw [natToChars, natToChars, natDigitsRev_unfold n, if_neg hn]
        simp
      rw [hsplit, digitsVal_append, ih (n / 10) (Nat.div_lt_self (by omega) (by omega))]
      have := (digit_char_facts (n % 10) (Nat.mod_lt n (by omega))).2.2.2.2
      rw [this]
      omega

theorem parseUint16_natToChars {d : Nat} (hpos : 0 < d) (hlt : d < 65536) :
    parseUint16 (natToChars d) = some d := by
  obtain ⟨hne, hdig, _, _⟩ := natToChars_facts d
  rw [parseUint16, if_neg hne]
  rw [if_pos (List.all_eq_true.mpr (fun c hc => hdig c hc))]
  rw [digitsVal_natToChars]
  rw [if_pos hlt]

theorem parseUint16_lt {l : Chars} {v : Nat} (h : parseUint16 l = some v) :
    v < 65536 := by
  rw [parseUint16] at h
  by_cases h1 : l = []
  · rw [if_pos h1] at h
    injection h
  · rw [if_neg h1] at h
    by_cases h2 : l.all Char.isDigit = true
    · rw [if_pos h2] at h
      by_cases h3 : digitsVal l < 65536
      · rw [if_pos h3] at h
        injection h with h
        omega
      · rw [if_neg h3] at h
        injection h
    · rw [if_neg h2] at h
      injection h

theorem dropWhile_head_false (p : Char → Bool) :
    ∀ (l : Chars) (c : Char) (rest : Chars), l.dropWhile p = c :: rest → p c = false := by
  intro l
  induction l with
  | nil => intro c rest h; simp at h
  | cons a as ih =>
    intro c rest h
    rw [List.dropWhile_cons] at h
    by_cases ha : p a = true
    · rw [if_pos ha] at h
      exact ih c rest h
    · rw [if_neg ha] at h
      injection h with h1 _
      rw [← h1]
      exact Bool.eq_false_iff.mpr ha

theorem dropWhile_eq_self (p : Char → Bool) (l : Chars)
    (h : ∀ c, l.head? = some c → p c = false) : l.dropWhile p = l := by
  cases l with
  | nil => rfl
  | cons a as =>
    rw [List.dropWhile_cons, if_neg]
    rw [h a rfl]
    simp

theorem dropWhile_is_suffix (p : Char → Bool) (l : Chars) :
    ∃ t, l = t ++ l.dropWhile p := by
  induction l with
  | nil => exact ⟨[], rfl⟩
  | cons a as ih =>
    rw [List.dropWhile_cons]
    by_cases ha : p a = true
    · rw [if_pos ha]
      obtain ⟨t, ht⟩ := ih
      exact ⟨a :: t, by rw [List.cons_append, ← ht]⟩
    · rw [if_neg ha]
      exact ⟨[], rfl⟩

theorem trimChars_eq_self {l : Chars}
    (hh : ∀ c, l.head? = some c → c.isWhitespace = false)
    (hl : ∀ c, l.getLast? = some c → c.isWhitespace = false) : trimChars l = l := by
  rw [trimChars, dropWhile_eq_self _ l hh]
  rw [dropWhile_eq_self _ l.reverse (fun c hc => hl c (by rwa [List.head?_reverse] at hc))]
  exact List.reverse_reverse l

theorem trimChars_props (raw : Chars) (h : trimChars raw ≠ []) :
    (∀ c, (trimChars raw).head? = some c → c.isWhitespace = false) ∧
    (∀ c, (trimChars raw).getLast? = some c → c.isWhitespace = false) := by
  have hz : trimChars raw =
      ((raw.dropWhile Char.isWhitespace).reverse.dropWhile Char.isWhitespace).reverse := rfl
  constructor
  · intro c hc
    rw [hz, List.head?_reverse] at hc
    -- c is the last char of z = dropWhile ws (reverse y); z is a suffix of reverse y,
    -- so its last char is the last char of reverse y, i.e. the head of y, which is
    -- not whitespace since y = dropWhile ws raw.
    obtain ⟨t, ht⟩ :=
      dropWhile_is_suffix Char.isWhitespace (raw.dropWhile Char.isWhitespace).reverse
    have hzne : (raw.dropWhile Char.isWhitespace).reverse.dropWhile Char.isWhitespace ≠ [] := by
      intro he
      rw [hz, he] at h
      exact h rfl
    have : (raw.dropWhile Char.isWhitespace).reverse.getLast? = some c := by
      rw [ht, List.getLast?_append_of_ne_nil _ hzne]
      exact hc
    rw [List.getLast?_reverse] at this
    cases hy : raw.dropWhile Char.isWhitespace with
    | nil => rw [hy] at this; simp at this
    | cons a as =>
      rw [hy] at this
      simp at this
      rw [← this]
      exact dropWhile_head_false Char.isWhitespace raw a as hy
  · intro c hc
    rw [hz, List.getLast?_reverse] at hc
    cases hzc : (raw.dropWhile Char.isWhitespace).reverse.dropWhile Char.isWhitespace with
    | nil => rw [hzc] at hc; simp at hc
    | cons a as =>
      rw [hzc] at hc
      simp at hc
      rw [← hc]
      exact dropWhile_head_false Char.isWhitespace _ a as hzc

/-- Shape invariant of every JID that `normalizeSessionJID` returns: the
user and server are non-empty, free of separator characters where the
grammar forbids them, the device fits in 16 bits, and the rendered string
has no whitespace at its edges. -/
def CanonicalJID (j : JID) : Prop :=
  j.user ≠ [] ∧ j.server ≠ [] ∧ '@' ∉ j.user ∧ '@' ∉ j.server ∧ ':' ∉ j.user ∧
  j.device < 65536 ∧
  (∀ c, j.user.head? = some c → c.isWhitespace = false) ∧
  (∀ c, j.server.getLast? = some c → c.isWhitespace = false)

theorem head?_append_left {l1 : Chars} (l2 : Chars) (h : l1 ≠ []) :
    (l1 ++ l2).head? = l1.head? := by
  cases l1 with
  | nil => exact absurd rfl h
  | cons a as => rfl

theorem parseJID_eval_pair {s : Chars} (u srv : Chars)
    (hsp : splitChar '@' s = [u, srv]) :
    parseJID s =
      (if containsChar u ':' then
        match splitChar ':' u with
        | [u0, d] =>
          match parseUint16 d with
          | some dev => .ok ⟨u0, srv, dev⟩
          | none => .error (str "failed to parse device part of JID")
        | _ => .error (str "unexpected number of colons in JID")
      else .ok ⟨u, srv, 0⟩) := by
  rw [parseJID, hsp]

theorem parseJID_eval_single {s : Chars} (x : Chars)
    (hsp : splitChar '@' s = [x]) : parseJID s = .ok (NewJID [] x) := by
  rw [parseJID, hsp]

/-- Facts about a successful parse with a non-empty user: the components
respect the JID grammar and inherit the edge characters of the input. -/
theorem parseJID_ok_facts {s : Chars} {j : JID} (h : parseJID s = .ok j)
    (hu : j.user ≠ []) :
    '@' ∉ j.user ∧ ':' ∉ j.user ∧ '@' ∉ j.server ∧ j.device < 65536 ∧
    j.user.head? = s.head? ∧
    (j.server ≠ [] → s.getLast? = j.server.getLast?) := by
  cases hsp : splitChar '@' s with
  | nil => exact absurd hsp (splitChar_ne_nil _ _)
  | cons p ps =>
    cases ps with
    | nil =>
      rw [parseJID_eval_single p hsp] at h
      injection h with h
      rw [← h] at hu
      exact absurd rfl hu
    | cons q qs =>
      cases qs with
      | cons _ _ =>
        rw [parseJID, hsp] at h
        exact absurd h (by simp)
      | nil =>
        obtain ⟨hna, hnb, hs⟩ := splitChar_eq_pair hsp
        rw [parseJID_eval_pair p q hsp] at h
        by_cases hcol : containsChar p ':' = true
        · rw [if_pos hcol] at h
          cases hsc : splitChar ':' p with
          | nil => exact absurd hsc (splitChar_ne_nil _ _)
          | cons p2 ps2 =>
            cases ps2 with
            | nil =>
              rw [hsc] at h
              exact absurd h (by simp)
            | cons q2 qs2 =>
              cases qs2 with
              | cons _ _ =>
                rw [hsc] at h
                exact absurd h (by simp)
              | nil =>
                obtain ⟨hnc1, hnc2, hpu⟩ := splitChar_eq_pair hsc
                simp only [hsc] at h
                cases hdev : parseUint16 q2 with
                | none =>
                  simp only [hdev] at h
                  exact absurd h (by simp)
                | some dev =>
                  simp only [hdev] at h
                  injection h with h
                  rw [← h] at hu ⊢
                  have hp2ne : p2 ≠ [] := hu
                  refine ⟨?_, hnc1, hnb, parseUint16_lt hdev, ?_, ?_⟩
                  · intro hm
                    exact hna (hpu ▸ List.mem_append.mpr (Or.inl hm))
                  · rw [hs, head?_append_left _ (by rw [hpu]; simp [hp2ne]),
                        hpu, head?_append_left _ hp2ne]
                  · intro hq
                    rw [hs, List.getLast?_append_of_ne_nil _ (by simp)]
                    show ('@' :: q).getLast? = q.getLast?
                    have : '@' :: q = ['@'] ++ q := rfl
                    rw [this, List.getLast?_append_of_ne_nil _ hq]
        · rw [if_neg hcol] at h
          injection h with h
          rw [← h] at hu ⊢
          have hpne : p ≠ [] := hu
          refine ⟨hna, ?_, hnb, by show (0:Nat) < 65536; decide, ?_, ?_⟩
          · intro hm
            exact hcol (containsChar_eq_true.mpr hm)
          · rw [hs, head?_append_left _ hpne]
          · intro hq
            rw [hs, List.getLast?_append_of_ne_nil _ (by simp)]
            show ('@' :: q).getLast? = q.getLast?
            have : '@' :: q = ['@'] ++ q := rfl
            rw [this, List.getLast?_append_of_ne_nil _ hq]

/-- Rendering a canonical JID and parsing it back yields the same JID. -/
theorem parse_render (j : JID) (h : CanonicalJID j) : parseJID j.string = .ok j := by
  obtain ⟨ju, js, jd⟩ := j
  obtain ⟨hu, hs, hau, has, hcu, hdev, _, _⟩ := h
  simp only at hu hs hau has hcu hdev
  by_cases hd : jd > 0
  · have hstr : JID.string ⟨ju, js, jd⟩ = (ju ++ ':' :: natToChars jd) ++ '@' :: js := by
      rw [JID.string]
      simp only [hd, if_pos]
    obtain ⟨hne, hdig, hna, hnc⟩ := natToChars_facts jd
    have hnotmemA : '@' ∉ ju ++ ':' :: natToChars jd := by
      intro hm
      rcases List.mem_append.mp hm with h1 | h2
      · exact hau h1
      · rcases List.mem_cons.mp h2 with he | h3
        · exact absurd he (by decide)
        · exact hna h3
    have hspEq : splitChar '@' (JID.string ⟨ju, js, jd⟩) =
        [ju ++ ':' :: natToChars jd, js] := by
      rw [hstr, splitChar_append _ hnotmemA, splitChar_of_not_mem has]
    rw [parseJID_eval_pair _ _ hspEq]
    rw [if_pos (containsChar_eq_true.mpr
      (List.mem_append.mpr (Or.inr (List.mem_cons_self _ _))))]
    have hspCol : splitChar ':' (ju ++ ':' :: natToChars jd) = [ju, natToChars jd] := by
      rw [splitChar_append _ hcu, splitChar_of_not_mem hnc]
    simp only [hspCol]
    rw [parseUint16_natToChars hd hdev]
  · have hd0 : jd = 0 := by omega
    subst hd0
    have hstr : JID.string ⟨ju, js, 0⟩ = ju ++ '@' :: js := by
      rw [JID.string]
      simp [hu]
    have hspEq : splitChar '@' (JID.string ⟨ju, js, 0⟩) = [ju, js] := by
      rw [hstr, splitChar_append _ hau, splitChar_of_not_mem has]
    rw [parseJID_eval_pair _ _ hspEq]
    rw [if_neg (fun hc => hcu (containsChar_eq_true.mp hc))]

theorem defaultServer_getLast_ws :
    ∀ c, DefaultUserServer.getLast? = some c → c.isWhitespace = false := by
  intro c hc
  have ht : DefaultUserServer.getLast? = some 't' := by decide
  rw [ht] at hc
  injection hc with hc
  rw [← hc]
  decide

theorem getLast?_append_cons (l1 : Chars) (c : Char) (l2 : Chars) (h : l2 ≠ []) :
    (l1 ++ c :: l2).getLast? = l2.getLast? := by
  rw [List.getLast?_append_of_ne_nil _ (by simp)]
  show (c :: l2).getLast? = l2.getLast?
  have hc : c :: l2 = [c] ++ l2 := rfl
  rw [hc, List.getLast?_append_of_ne_nil _ h]

/-- Canonical shape of a JID produced by the fallback branch (reached only
when the first parse failed or had an empty user). -/
theorem normalizeFallback_canonical {cleaned : Chars} {j : JID}
    (h : normalizeFallback cleaned = .ok j) (hne : cleaned ≠ [])
    (hprev : (∃ e, parseJID cleaned = .error e) ∨
             (∃ j0, parseJID cleaned = .ok j0 ∧ j0.user = []))
    (hhead : ∀ c, cleaned.head? = some c → c.isWhitespace = false) :
    CanonicalJID j := by
  simp only [normalizeFallback] at h
  by_cases hcont : containsChar cleaned '@' = true
  · rw [if_pos hcont] at h
    rcases hprev with ⟨e, hp⟩ | ⟨j0, hp, hu0⟩
    · simp only [hp] at h
      exact absurd h (by simp)
    · simp only [hp] at h
      rw [if_pos hu0] at h
      exact absurd h (by simp)
  · rw [if_neg hcont] at h
    have hnotmem : '@' ∉ cleaned := fun hm => hcont (containsChar_eq_true.mpr hm)
    have hspEq : splitChar '@' (cleaned ++ '@' :: DefaultUserServer) =
        [cleaned, DefaultUserServer] := by
      rw [splitChar_append _ hnotmem, splitChar_of_not_mem (by decide)]
    by_cases hcol : containsChar cleaned ':' = true
    · cases hsc : splitChar ':' cleaned with
      | nil => exact absurd hsc (splitChar_ne_nil _ _)
      | cons p ps =>
        cases ps with
        | nil =>
          have hpj : parseJID (cleaned ++ '@' :: DefaultUserServer) =
              .error (str "unexpected number of colons in JID") := by
            rw [parseJID_eval_pair _ _ hspEq, if_pos hcol]
            simp only [hsc]
          simp only [hpj] at h
          exact absurd h (by simp)
        | cons q qs =>
          cases qs with
          | cons _ _ =>
            have hpj : parseJID (cleaned ++ '@' :: DefaultUserServer) =
                .error (str "unexpected number of colons in JID") := by
              rw [parseJID_eval_pair _ _ hspEq, if_pos hcol]
              simp only [hsc]
            simp only [hpj] at h
            exact absurd h (by simp)
          | nil =>
            obtain ⟨hc1, hc2, hpu⟩ := splitChar_eq_pair hsc
            cases hdev : parseUint16 q with
            | none =>
              have hpj : parseJID (cleaned ++ '@' :: DefaultUserServer) =
                  .error (str "failed to parse device part of JID") := by
                rw [parseJID_eval_pair _ _ hspEq, if_pos hcol]
                simp only [hsc]
                rw [hdev]
              simp only [hpj] at h
              exact absurd h (by simp)
            | some dev =>
              have hpj : parseJID (cleaned ++ '@' :: DefaultUserServer) =
                  .ok ⟨p, DefaultUserServer, dev⟩ := by
                rw [parseJID_eval_pair _ _ hspEq, if_pos hcol]
                simp only [hsc]
                rw [hdev]
              simp only [hpj] at h
              by_cases hp0 : p = []
              · rw [if_pos hp0] at h
                exact absurd h (by simp)
              · rw [if_neg hp0] at h
                injection h with h
                rw [← h]
                refine ⟨hp0, by show DefaultUserServer ≠ []; decide, ?_,
                  by show '@' ∉ DefaultUserServer; decide, hc1,
                  parseUint16_lt hdev, ?_, defaultServer_getLast_ws⟩
                · intro hm
                  exact hnotmem (hpu ▸ List.mem_append.mpr (Or.inl hm))
                · intro c hc
                  apply hhead
                  rw [hpu, head?_append_left _ hp0]
                  exact hc
    · have hpj : parseJID (cleaned ++ '@' :: DefaultUserServer) =
          .ok ⟨cleaned, DefaultUserServer, 0⟩ := by
        rw [parseJID_eval_pair _ _ hspEq, if_neg hcol]
      simp only [hpj] at h
      by_cases hp0 : cleaned = []
      · exact absurd hp0 hne
      · rw [if_neg hp0] at h
        injection h with h
        rw [← h]
        refine ⟨hp0, by show DefaultUserServer ≠ []; decide, hnotmem,
          by show '@' ∉ DefaultUserServer; decide,
          fun hm => hcol (containsChar_eq_true.mpr hm),
          by show (0:Nat) < 65536; decide, hhead, defaultServer_getLast_ws⟩

/-- Every JID `normalizeSessionJID` returns is canonical. -/
theorem normalize_canonical {raw : Chars} {j : JID}
    (h : normalizeSessionJID raw = .ok j) : CanonicalJID j := by
  simp only [normalizeSessionJID] at h
  by_cases hne : trimChars raw = []
  · rw [if_pos hne] at h
    exact absurd h (by simp)
  · rw [if_neg hne] at h
    obtain ⟨hhead, hlast⟩ := trimChars_props raw hne
    cases hp : parseJID (trimChars raw) with
    | error e =>
      simp only [hp] at h
      exact normalizeFallback_canonical h hne (Or.inl ⟨e, hp⟩) hhead
    | ok j0 =>
      simp only [hp] at h
      by_cases hu : j0.user = []
      · rw [if_neg (fun hne2 => hne2 hu)] at h
        exact normalizeFallback_canonical h hne (Or.inr ⟨j0, hp, hu⟩) hhead
      · rw [if_pos hu] at h
        injection h with h
        obtain ⟨hau, hcu, has, hdev, hheadeq, hlasteq⟩ := parseJID_ok_facts hp hu
        by_cases hs0 : j0.server = []
        · rw [if_pos hs0] at h
          rw [← h]
          refine ⟨hu, by show DefaultUserServer ≠ []; decide, hau,
            by show '@' ∉ DefaultUserServer; decide, hcu, hdev, ?_,
            defaultServer_getLast_ws⟩
          intro c hc
          apply hhead
          rw [← hheadeq]
          exact hc
        · rw [if_neg hs0] at h
          rw [← h]
          refine ⟨hu, hs0, hau, has, hcu, hdev, ?_, ?_⟩
          · intro c hc
            apply hhead
            rw [← hheadeq]
            exact hc
          · intro c hc
            apply hlast
            rw [hlasteq hs0]
            exact hc

/-- C9: JID normalization is idempotent — normalizing the string form of a
successful normalization yields the same JID. -/
theorem normalize_jid_idempotent (x : Chars) (hx : x.any Char.isDigit = true)
    (j : JID) (h : normalizeSessionJID x = .ok j) :
    normalizeSessionJID j.string = .ok j := by
  have hcan := normalize_canonical h
  obtain ⟨hu, hs, hau, has, hcu, hdev, hhw, hsw⟩ := hcan
  have hstrne : j.string ≠ [] := by
    rw [JID.string]
    by_cases hd : j.device > 0
    · rw [if_pos hd]
      intro he
      simp at he
    · rw [if_neg hd, if_pos hu]
      intro he
      rcases List.append_eq_nil.mp he with ⟨h1, _⟩
      exact hu h1
  have hhead2 : ∀ c, j.string.head? = some c → c.isWhitespace = false := by
    intro c hc
    apply hhw c
    rw [JID.string] at hc
    by_cases hd : j.device > 0
    · rw [if_pos hd, head?_append_left _ (by simp [hu]),
          head?_append_left _ hu] at hc
      exact hc
    · rw [if_neg hd, if_pos hu, head?_append_left _ hu] at hc
      exact hc
  have hlast2 : ∀ c, j.string.getLast? = some c → c.isWhitespace = false := by
    intro c hc
    apply hsw c
    rw [JID.string] at hc
    by_cases hd : j.device > 0
    · rw [if_pos hd, getLast?_append_cons _ _ _ hs] at hc
      exact hc
    · rw [if_neg hd, if_pos hu, getLast?_append_cons _ _ _ hs] at hc
      exact hc
  have htrim := trimChars_eq_self hhead2 hlast2
  have hpr := parse_render j ⟨hu, hs, hau, has, hcu, hdev, hhw, hsw⟩
  simp only [normalizeSessionJID, htrim]
  rw [if_neg hstrne]
  simp only [hpr]
  rw [if_pos hu, if_neg hs]

/-- C9 witness: idempotence at the bare number 6281:12 (which normalizes to
6281:12@s.whatsapp.net). -/
theorem normalize_jid_idempotent_witness :
    (str "6281:12").any Char.isDigit = true ∧
    normalizeSessionJID (str "6281:12") = .ok ⟨str "6281", DefaultUserServer, 12⟩ ∧
    normalizeSessionJID (JID.string ⟨str "6281", DefaultUserServer, 12⟩) =
      .ok ⟨str "6281", DefaultUserServer, 12⟩ :=
  ⟨by decide, by rfl,
   normalize_jid_idempotent (str "6281:12") (by decide) _ (by rfl)⟩

end Wago
